import Mathlib

set_option maxHeartbeats 1000000

/-!
Verification development for the opencode-monitor repository.

Part 1: the frontend state handled in `App` (debug buffer, composer input,
skill selection), embedded directly from the TypeScript source.
JavaScript strings are modelled by Lean `String` (a wrapper around
`List Char`), `String.prototype.trim` by `jsTrim`, `includes` by
`jsIncludes`, `toLowerCase` by `jsToLower`.

Part 2: the session orchestration core (Session Registry, Approval Gate,
Orchestration Facade), which lives in the Rust backend and is modelled
from the specification.
-/

/-- Drop trailing characters satisfying `Char.isWhitespace` from the right
end of a character list; the right half of JavaScript `trim`. -/
def rightTrimChars (l : List Char) : List Char :=
  l.rdropWhile Char.isWhitespace

/-- Both-ends whitespace trimming of a character list, as JavaScript
`String.prototype.trim` does. -/
def trimChars (l : List Char) : List Char :=
  (rightTrimChars l).dropWhile Char.isWhitespace

/-- JavaScript `s.trim()`. -/
def jsTrim (s : String) : String :=
  ⟨trimChars s.data⟩

/-- JavaScript `s.includes(pat)`: `pat` occurs contiguously inside `s`. -/
def jsIncludes (s pat : String) : Bool :=
  decide (pat.data <:+: s.data)

/-- JavaScript `s.toLowerCase()` (per-character lowering). -/
def jsToLower (s : String) : String :=
  ⟨s.data.map Char.toLower⟩

/-- Payload of a debug entry: TypeScript `payload?: unknown`; the code only
distinguishes string payloads (`typeof entry.payload === "string"`). -/
inductive DebugPayload
  | absent
  | str (s : String)
  | other (repr : String)
deriving DecidableEq

/-- A debug entry as produced throughout the frontend (`DebugEntry` in
`types.ts`): an id, a timestamp, a source tag, a label and a payload. -/
structure DebugEntry where
  id : String
  timestamp : Nat
  source : String
  label : String
  payload : DebugPayload
deriving DecidableEq

/-- `shouldLogEntry` from `App`: keep an entry when its source is `error`
or `stderr`, its lowercased label contains `warn` or `warning`, or its
payload is a string whose lowercase form contains `warn` or `warning`. -/
def shouldLogEntry (e : DebugEntry) : Bool :=
  if e.source = "error" ∨ e.source = "stderr" then
    true
  else
    let label := jsToLower e.label
    if jsIncludes label "warn" || jsIncludes label "warning" then
      true
    else
      match e.payload with
      | DebugPayload.str s =>
          let payload := jsToLower s
          jsIncludes payload "warn" || jsIncludes payload "warning"
      | _ => false

/-- JavaScript `l.slice(-n)` on arrays: the at most `n` last elements, in
order. -/
def sliceLast (n : Nat) (l : List α) : List α :=
  (l.reverse.take n).reverse

/-- The process-wide debug state of `App`: the `debugEntries` list and the
`hasDebugAlerts` flag. -/
structure DebugState where
  entries : List DebugEntry
  alert : Bool
deriving DecidableEq

/-- Initial debug state: `useState([])` and `useState(false)`. -/
def debugInit : DebugState :=
  { entries := [], alert := false }

/-- `addDebugEntry` from `App`: filtered through `shouldLogEntry`; a kept
entry sets the alert flag and is appended with `[...prev, entry].slice(-200)`. -/
def addDebugEntry (e : DebugEntry) (st : DebugState) : DebugState :=
  if shouldLogEntry e then
    { entries := sliceLast 200 (st.entries ++ [e]), alert := true }
  else
    st

/-- The `onClear` handler of the `DebugPanel` in `App`: resets the entry
list and the alert flag. -/
def clearDebug (_st : DebugState) : DebugState :=
  { entries := [], alert := false }

/-- Run a sequence of `addDebugEntry` calls from the initial state. -/
def runDebug (es : List DebugEntry) : DebugState :=
  es.foldl (fun st e => addDebugEntry e st) debugInit

/-- Composer-relevant state of `App`: the `input` field and the messages
passed to `sendUserMessage`, in order. -/
structure ComposerState where
  input : String
  sent : List String
deriving DecidableEq

/-- `handleSend` from `App`: a whitespace-only input is ignored; otherwise
the input is sent as-is and the field reset to the empty string. -/
def handleSend (st : ComposerState) : ComposerState :=
  if jsTrim st.input = "" then
    st
  else
    { input := "", sent := st.sent ++ [st.input] }

/-- The snippet `handleSelectSkill` inserts for a skill `name`. -/
def skillSnippet (name : String) : String :=
  "$" ++ name

/-- `handleSelectSkill` from `App`, as the update applied to the `input`
state: empty (after trim) input becomes the snippet plus a space; an input
whose trim already contains the snippet is kept; otherwise the snippet is
appended after the trimmed input. -/
def handleSelectSkill (name prev : String) : String :=
  let snippet := skillSnippet name
  if jsTrim prev = "" then
    snippet ++ " "
  else if jsIncludes (jsTrim prev) snippet then
    prev
  else
    jsTrim prev ++ " " ++ snippet ++ " "

/-- The alert condition as the specification claim words it: source is
`error` or `stderr`, or the label contains `warn` case-insensitively, or
the payload is a string containing `warn` case-insensitively. Stated
separately from `shouldLogEntry` so the two can be compared. -/
def claimedAlertCond (e : DebugEntry) : Bool :=
  decide (e.source = "error") || decide (e.source = "stderr")
  || jsIncludes (jsToLower e.label) "warn"
  || (match e.payload with
      | DebugPayload.str s => jsIncludes (jsToLower s) "warn"
      | _ => false)

/-!
Part 2: the session orchestration core. The Registry, Approval Gate and
Orchestration Facade are implemented in the Rust backend (`src-tauri`),
which is not among the frontend sources; they are modelled from the
specification (sections 3, 4.2, 4.3, 4.4 and 7).
-/

/-- Modelled from the spec: session lifecycle status (data model, section 3);
the Rust session orchestration core is missing from the sources. -/
inductive SessionStatus
  | created
  | running
  | awaitingApproval
  | completed
  | failed
  | aborted
deriving DecidableEq

/-- Modelled from the spec: the terminal statuses are `completed`, `failed`
and `aborted`. -/
def SessionStatus.isTerminal : SessionStatus → Bool
  | SessionStatus.completed => true
  | SessionStatus.failed => true
  | SessionStatus.aborted => true
  | _ => false

/-- Modelled from the spec: backend kind of a session. -/
inductive SessionKind
  | remote
  | localProcess
deriving DecidableEq

/-- Modelled from the spec: role of a log entry. -/
inductive Role
  | user
  | agent
  | system
deriving DecidableEq

/-- Modelled from the spec: payload of a log entry — text, tool-call
descriptor, diff reference, or approval request. -/
inductive Payload
  | text (s : String)
  | toolCall (descr : String)
  | diffRef (s : String)
  | approvalRequest (action : String)
deriving DecidableEq

/-- Modelled from the spec: does the payload signal an approval-required
action? -/
def Payload.needsApproval : Payload → Bool
  | Payload.approvalRequest _ => true
  | _ => false

/-- Modelled from the spec: the proposed action carried by a gated payload. -/
def Payload.actionOf : Payload → String
  | Payload.approvalRequest a => a
  | _ => ""

/-- Modelled from the spec: one immutable, sequence-numbered entry of a
session's transcript. -/
structure Event where
  role : Role
  payload : Payload
  seq : Nat
deriving DecidableEq

/-- Modelled from the spec: event data before the Registry assigns the
sequence number. -/
structure EventData where
  role : Role
  payload : Payload
deriving DecidableEq

/-- Modelled from the spec: decision slot of an Approval Request. -/
inductive Decision
  | pending
  | approved
  | denied
deriving DecidableEq

/-- Modelled from the spec: an Approval Request referencing a session, a
proposed action, and a decision slot. -/
structure ApprovalRequest where
  sessionId : Nat
  action : String
  decision : Decision
deriving DecidableEq

/-- Modelled from the spec: a session owned by the Registry. -/
structure Session where
  workspaceId : Nat
  kind : SessionKind
  status : SessionStatus
  log : List Event
deriving DecidableEq

/-- Modelled from the spec: the error taxonomy subset reached by the
modelled operations (section 7). -/
inductive OrchError
  | notFound
  | alreadyResolved
  | invalidState
deriving DecidableEq

/-- Modelled from the spec: the Session Registry state together with the
Approval Gate's requests, with fresh-id counters. -/
structure Registry where
  sessions : List (Nat × Session)
  approvals : List (Nat × ApprovalRequest)
  nextSessionId : Nat
  nextRequestId : Nat
deriving DecidableEq

/-- First-match association-list lookup. -/
def lookupA {α : Type} (k : Nat) : List (Nat × α) → Option α
  | [] => none
  | (k', v) :: rest => if k' = k then some v else lookupA k rest

/-- Replace the first entry with key `k` (no insertion). -/
def updateA {α : Type} (k : Nat) (v : α) : List (Nat × α) → List (Nat × α)
  | [] => []
  | (k', v') :: rest => if k' = k then (k, v) :: rest else (k', v') :: updateA k v rest

/-- Remove the first entry with key `k`. -/
def removeA {α : Type} (k : Nat) : List (Nat × α) → List (Nat × α)
  | [] => []
  | (k', v') :: rest => if k' = k then rest else (k', v') :: removeA k rest

/-- Modelled from the spec: `createSession` allocates the entity under a
fresh id and records initial status `created` to `running`. -/
def createSession (wid : Nat) (k : SessionKind) (reg : Registry) : Registry :=
  { reg with
    sessions := reg.sessions ++
      [(reg.nextSessionId,
        { workspaceId := wid, kind := k, status := SessionStatus.running, log := [] })],
    nextSessionId := reg.nextSessionId + 1 }

/-- Modelled from the spec: `appendEvent` assigns the next sequence number
and appends; an approval-required event transitions the session to
`awaiting-approval` and opens a pending Approval Request; a terminal session
accepts no entry, and a session suspended on an approval does not advance. -/
def appendEvent (sid : Nat) (d : EventData) (reg : Registry) : Except OrchError Registry :=
  match lookupA sid reg.sessions with
  | none => Except.error OrchError.notFound
  | some s =>
    if s.status.isTerminal then Except.error OrchError.invalidState
    else if s.status = SessionStatus.awaitingApproval then Except.error OrchError.invalidState
    else
      let ev : Event := { role := d.role, payload := d.payload, seq := s.log.length + 1 }
      if d.payload.needsApproval then
        Except.ok { reg with
          sessions := updateA sid
            { s with status := SessionStatus.awaitingApproval, log := s.log ++ [ev] }
            reg.sessions,
          approvals := reg.approvals ++
            [(reg.nextRequestId,
              { sessionId := sid, action := d.payload.actionOf, decision := Decision.pending })],
          nextRequestId := reg.nextRequestId + 1 }
      else
        Except.ok { reg with
          sessions := updateA sid { s with log := s.log ++ [ev] } reg.sessions }

/-- Modelled from the spec: the denial event appended when a request is
denied; it receives the next sequence number after a log of length `n`. -/
def denialEvent (n : Nat) : Event :=
  { role := Role.system, payload := Payload.text "approval denied", seq := n + 1 }

/-- Modelled from the spec: `decideApproval` resolves a pending request
exactly once; a second decision fails with `AlreadyResolved`; resolving
returns the owning awaiting session to `running`, appending a denial event
when the decision is `denied`. -/
def decideApproval (rid : Nat) (approve : Bool) (reg : Registry) : Except OrchError Registry :=
  match lookupA rid reg.approvals with
  | none => Except.error OrchError.notFound
  | some req =>
    if req.decision ≠ Decision.pending then Except.error OrchError.alreadyResolved
    else
      let newDecision := if approve then Decision.approved else Decision.denied
      let approvals := updateA rid { req with decision := newDecision } reg.approvals
      match lookupA req.sessionId reg.sessions with
      | none => Except.ok { reg with approvals := approvals }
      | some s =>
        if s.status = SessionStatus.awaitingApproval then
          let log := if approve then s.log else s.log ++ [denialEvent s.log.length]
          Except.ok { reg with
            approvals := approvals,
            sessions := updateA req.sessionId
              { s with status := SessionStatus.running, log := log } reg.sessions }
        else
          Except.ok { reg with approvals := approvals }

/-- Modelled from the spec: `abort` transitions a non-terminal session to
`aborted`; a terminal status admits no further transition. -/
def abortSession (sid : Nat) (reg : Registry) : Except OrchError Registry :=
  match lookupA sid reg.sessions with
  | none => Except.error OrchError.notFound
  | some s =>
    if s.status.isTerminal then Except.error OrchError.invalidState
    else Except.ok { reg with
      sessions := updateA sid { s with status := SessionStatus.aborted } reg.sessions }

/-- Modelled from the spec: `delete` requires a terminal status and removes
the session and its log. -/
def deleteSession (sid : Nat) (reg : Registry) : Except OrchError Registry :=
  match lookupA sid reg.sessions with
  | none => Except.error OrchError.notFound
  | some s =>
    if s.status.isTerminal then
      Except.ok { reg with sessions := removeA sid reg.sessions }
    else Except.error OrchError.invalidState

/-- Modelled from the spec: one Registry-level operation of some session's
execution unit, used to form arbitrary interleavings. -/
inductive ROp
  | create (wid : Nat) (k : SessionKind)
  | append (sid : Nat) (d : EventData)
  | decide (rid : Nat) (approve : Bool)
  | abort (sid : Nat)
  | delete (sid : Nat)
deriving DecidableEq

/-- Modelled from the spec: apply one serialized operation; a failed
operation leaves the Registry unchanged. -/
def stepR (reg : Registry) : ROp → Registry
  | ROp.create wid k => createSession wid k reg
  | ROp.append sid d =>
    match appendEvent sid d reg with
    | Except.ok r => r
    | Except.error _ => reg
  | ROp.decide rid b =>
    match decideApproval rid b reg with
    | Except.ok r => r
    | Except.error _ => reg
  | ROp.abort sid =>
    match abortSession sid reg with
    | Except.ok r => r
    | Except.error _ => reg
  | ROp.delete sid =>
    match deleteSession sid reg with
    | Except.ok r => r
    | Except.error _ => reg

/-- Modelled from the spec: run an interleaving of concurrent sessions'
operations through the serializing Registry. -/
def runOps (ops : List ROp) (reg : Registry) : Registry :=
  ops.foldl stepR reg

/-- Modelled from the spec: the empty initial Registry. -/
def initRegistry : Registry :=
  { sessions := [], approvals := [], nextSessionId := 1, nextRequestId := 1 }

/-- Is this approvals entry an unresolved request referencing session
`sid`? -/
def isPendingFor (sid : Nat) (q : Nat × ApprovalRequest) : Bool :=
  decide (q.2.sessionId = sid ∧ q.2.decision = Decision.pending)

/-- Number of unresolved Approval Requests referencing session `sid`. -/
def pendingFor (sid : Nat) (l : List (Nat × ApprovalRequest)) : Nat :=
  (l.filter (isPendingFor sid)).length

/-- Modelled from the spec: an Orchestration Facade call carrying a
sessionId. -/
inductive FacadeOp
  | sendMessage (text : String)
  | streamOutput
  | abortSession
  | deleteSession
deriving DecidableEq

/-- Modelled from the spec: does the session exist and belong to the
caller's workspace? -/
def sessionInWorkspace (wid sid : Nat) (reg : Registry) : Bool :=
  match lookupA sid reg.sessions with
  | none => false
  | some s => decide (s.workspaceId = wid)

/-- Modelled from the spec: the Facade validates that the session belongs to
the caller's workspace before delegating to the Registry; a cross-workspace
or unknown id fails with `NotFound`. -/
def facadeCall (wid sid : Nat) (op : FacadeOp) (reg : Registry) : Except OrchError Registry :=
  if sessionInWorkspace wid sid reg then
    match op with
    | FacadeOp.sendMessage t =>
      appendEvent sid { role := Role.user, payload := Payload.text t } reg
    | FacadeOp.streamOutput => Except.ok reg
    | FacadeOp.abortSession => abortSession sid reg
    | FacadeOp.deleteSession => deleteSession sid reg
  else
    Except.error OrchError.notFound

/-- The Registry invariant maintained by every operation: contiguous
sequence numbers per session, distinct and bounded ids, and the Approval
Gate bookkeeping (an awaiting session has exactly one unresolved request, an
active one has none). -/
structure RegInv (reg : Registry) : Prop where
  seqs : ∀ p ∈ reg.sessions, (p.2 : Session).log.map Event.seq = List.range' 1 p.2.log.length
  skeysNodup : (reg.sessions.map Prod.fst).Nodup
  skeysLt : ∀ p ∈ reg.sessions, (p : Nat × Session).1 < reg.nextSessionId
  akeysNodup : (reg.approvals.map Prod.fst).Nodup
  akeysLt : ∀ q ∈ reg.approvals, (q : Nat × ApprovalRequest).1 < reg.nextRequestId
  apprSidLt : ∀ q ∈ reg.approvals, (q : Nat × ApprovalRequest).2.sessionId < reg.nextSessionId
  gateOne : ∀ p ∈ reg.sessions, (p : Nat × Session).2.status = SessionStatus.awaitingApproval →
    pendingFor p.1 reg.approvals = 1
  gateZero : ∀ p ∈ reg.sessions,
    ((p : Nat × Session).2.status = SessionStatus.running ∨ p.2.status = SessionStatus.created) →
    pendingFor p.1 reg.approvals = 0

/-!
Helper lemmas on trimming, containment and bounded slicing.
-/

theorem dropWhile_head_false {p : Char → Bool} :
    ∀ {l t : List Char} {a : Char}, l.dropWhile p = a :: t → p a = false := by
  intro l
  induction l with
  | nil => intro t a h; simp [List.dropWhile] at h
  | cons b l ih =>
    intro t a h
    by_cases hb : p b
    · rw [List.dropWhile_cons_of_pos hb] at h
      exact ih h
    · rw [List.dropWhile_cons_of_neg hb] at h
      cases h
      simpa using hb

theorem dropWhile_fixed_append {m : List Char} (hm : m.dropWhile Char.isWhitespace = m)
    (hne : m ≠ []) (x : List Char) : (m ++ x).dropWhile Char.isWhitespace = m ++ x := by
  cases m with
  | nil => exact absurd rfl hne
  | cons a t =>
    have ha : Char.isWhitespace a = false := dropWhile_head_false hm
    rw [List.cons_append, List.dropWhile_cons_of_neg (by simp [ha])]

theorem rightTrim_concat_ws {c : Char} (hc : Char.isWhitespace c) (l : List Char) :
    rightTrimChars (l ++ [c]) = rightTrimChars l :=
  List.rdropWhile_concat_pos _ _ _ hc

theorem rightTrim_fixed_append {m : List Char} (hm : rightTrimChars m = m)
    (hne : m ≠ []) (x : List Char) : rightTrimChars (x ++ m) = x ++ m := by
  unfold rightTrimChars at hm ⊢
  rw [List.rdropWhile_eq_self_iff] at hm ⊢
  intro h
  rw [List.getLast_append_of_ne_nil hne]
  exact hm hne

theorem trimChars_dropWhile_fixed (l : List Char) :
    (trimChars l).dropWhile Char.isWhitespace = trimChars l := by
  simp [trimChars, List.dropWhile_idempotent]

theorem trimChars_glue {X S : List Char} (hX : X.dropWhile Char.isWhitespace = X)
    (hXne : X ≠ []) (hS : rightTrimChars S = S) (hSne : S ≠ []) :
    trimChars (X ++ [' '] ++ S ++ [' ']) = X ++ [' '] ++ S := by
  have h1 : rightTrimChars (X ++ [' '] ++ S ++ [' ']) = X ++ [' '] ++ S := by
    rw [rightTrim_concat_ws (by decide)]
    exact rightTrim_fixed_append hS hSne (X ++ [' '])
  unfold trimChars
  rw [h1, List.append_assoc, dropWhile_fixed_append hX hXne, ← List.append_assoc]

theorem strEq_iff_data {a b : String} : a = b ↔ a.data = b.data := by
  constructor
  · intro h; rw [h]
  · intro h; cases a; cases b; exact congrArg String.mk h

theorem jsIncludes_true_iff {s pat : String} :
    jsIncludes s pat = true ↔ pat.data <:+: s.data := by
  simp [jsIncludes]

theorem jsTrim_data (s : String) : (jsTrim s).data = trimChars s.data := rfl

theorem space_data : (" " : String).data = [' '] := rfl

theorem skillSnippet_data (name : String) :
    (skillSnippet name).data = '$' :: name.data := by
  simp [skillSnippet, String.data_append]

theorem skillSnippet_data_ne_nil (name : String) : (skillSnippet name).data ≠ [] := by
  rw [skillSnippet_data]
  simp

theorem length_sliceLast (n : Nat) (l : List α) : (sliceLast n l).length ≤ n := by
  simp [sliceLast, List.length_take]

theorem sliceLast_append_left (n : Nat) (l r : List α) :
    sliceLast n (sliceLast n l ++ r) = sliceLast n (l ++ r) := by
  unfold sliceLast
  rw [List.reverse_append, List.reverse_reverse, List.reverse_append]
  congr 1
  rw [List.take_append_eq_append_take, List.take_append_eq_append_take, List.take_take]
  congr 2
  omega

theorem runDebug_entries_aux :
    ∀ (es : List DebugEntry) (l : List DebugEntry) (b : Bool),
      (es.foldl (fun st e => addDebugEntry e st)
          { entries := sliceLast 200 l, alert := b }).entries
        = sliceLast 200 (l ++ es.filter shouldLogEntry) := by
  intro es
  induction es with
  | nil => intro l b; simp
  | cons e es ih =>
    intro l b
    by_cases he : shouldLogEntry e
    · have step : addDebugEntry e { entries := sliceLast 200 l, alert := b }
          = { entries := sliceLast 200 (l ++ [e]), alert := true } := by
        simp [addDebugEntry, he, sliceLast_append_left]
      rw [List.foldl_cons, step, ih (l ++ [e]) true]
      simp [List.filter_cons, he, List.append_assoc]
    · have step : addDebugEntry e { entries := sliceLast 200 l, alert := b }
          = { entries := sliceLast 200 l, alert := b } := by
        simp [addDebugEntry, he]
      rw [List.foldl_cons, step, ih l b]
      simp [List.filter_cons, he]

theorem or_warning_absorb (t : String) :
    (jsIncludes t "warn" || jsIncludes t "warning") = jsIncludes t "warn" := by
  cases h2 : jsIncludes t "warning"
  · simp
  · have h1 : jsIncludes t "warn" = true := by
      have hwing : ("warning" : String).data <:+: t.data := jsIncludes_true_iff.mp h2
      have hw : ("warn" : String).data <:+: ("warning" : String).data :=
        ⟨[], ['i', 'n', 'g'], by decide⟩
      exact jsIncludes_true_iff.mpr (hw.trans hwing)
    simp [h1]

theorem empty_data : ("" : String).data = [] := rfl

theorem warning_of_warn_false {t : String} (h : jsIncludes t "warn" = false) :
    jsIncludes t "warning" = false := by
  cases h2 : jsIncludes t "warning"
  · rfl
  · have habs := or_warning_absorb t
    rw [h, h2] at habs
    simp at habs

/-!
Claims C7 to C10, decided against the frontend source.
-/

/-- Claim C7: the process-wide debug log is a bounded buffer with
drop-oldest behavior and an explicit reset: after any sequence of
`addDebugEntry` calls the entry list holds exactly the at most 200 most
recent kept entries in arrival order (hence never more than 200), and the
clear operation resets the list to empty and the alert flag to false. -/
theorem debug_buffer_bounded :
    (∀ es : List DebugEntry,
      (runDebug es).entries = sliceLast 200 (es.filter shouldLogEntry) ∧
      (runDebug es).entries.length ≤ 200) ∧
    (∀ st : DebugState, clearDebug st = { entries := [], alert := false }) := by
  constructor
  · intro es
    have h0 : runDebug es
        = es.foldl (fun st e => addDebugEntry e st)
            { entries := sliceLast 200 [], alert := false } := rfl
    have h := runDebug_entries_aux es [] false
    constructor
    · rw [h0, h]
      simp
    · rw [h0, h]
      exact length_sliceLast 200 _
  · intro st
    rfl

/-- Claim C8: `addDebugEntry` appends the entry (drop-oldest at 200) and
sets the alert flag exactly when the entry's source is `error` or `stderr`,
or its label contains `warn` case-insensitively, or its payload is a string
containing `warn` case-insensitively; every other entry leaves the state
unchanged. -/
theorem addDebugEntry_filter_iff (e : DebugEntry) (st : DebugState) :
    addDebugEntry e st =
      if claimedAlertCond e then
        { entries := sliceLast 200 (st.entries ++ [e]), alert := true }
      else st := by
  have hcond : shouldLogEntry e = claimedAlertCond e := by
    unfold shouldLogEntry claimedAlertCond
    by_cases h1 : e.source = "error"
    · simp [h1]
    · by_cases h2 : e.source = "stderr"
      · simp [h1, h2]
      · cases hp : e.payload <;>
          cases hw : jsIncludes (jsToLower e.label) "warn" <;>
            first
            | (simp [h1, h2, hp, hw, or_warning_absorb]; done)
            | simp [h1, h2, hp, hw, or_warning_absorb, warning_of_warn_false hw]
  unfold addDebugEntry
  rw [hcond]

/-- Claim C9 counterexample: `handleSend` passes the original input to
`sendUserMessage`, not the trimmed text; on input `" hi "` the sent message
differs from the trimmed text. -/
theorem handleSend_trim_counterexample :
    (handleSend { input := " hi ", sent := [] }).sent ≠ [jsTrim " hi "] := by
  decide

/-- Claim C9 (amended): `handleSend` is a no-op when the composer input is
empty or whitespace-only; for every other input the original input text
(untrimmed) is sent via `sendUserMessage` and the input is reset to the
empty string. -/
theorem handleSend_spec (st : ComposerState) :
    (jsTrim st.input = "" → handleSend st = st) ∧
    (jsTrim st.input ≠ "" →
      handleSend st = { input := "", sent := st.sent ++ [st.input] }) := by
  constructor
  · intro h
    simp [handleSend, h]
  · intro h
    simp [handleSend, h]

theorem handleSend_spec_witness :
    handleSend { input := "  ", sent := [] } = { input := "  ", sent := ([] : List String) } ∧
    handleSend { input := " hi ", sent := [] } = { input := "", sent := [" hi "] } := by
  constructor
  · exact (handleSend_spec { input := "  ", sent := [] }).1 (by decide)
  · exact (handleSend_spec { input := " hi ", sent := [] }).2 (by decide)

/-- Claim C10 counterexample: for the skill name `"a "` (trailing blank)
selecting the skill twice does not equal selecting it once. -/
theorem selectSkill_idem_counterexample :
    handleSelectSkill "a " (handleSelectSkill "a " "") ≠ handleSelectSkill "a " "" := by
  decide

/-- Claim C10 (amended): `handleSelectSkill` keeps an input whose trim
already contains the snippet, turns a whitespace-only input into the
snippet plus a space, and otherwise appends the snippet plus a trailing
space after the trimmed prior input; provided the snippet carries no
trailing whitespace, selecting the same skill twice equals selecting it
once. -/
theorem selectSkill_spec (name prev : String)
    (hname : rightTrimChars (skillSnippet name).data = (skillSnippet name).data) :
    (jsTrim prev = "" → handleSelectSkill name prev = skillSnippet name ++ " ") ∧
    (jsIncludes (jsTrim prev) (skillSnippet name) = true →
      handleSelectSkill name prev = prev) ∧
    (jsTrim prev ≠ "" → jsIncludes (jsTrim prev) (skillSnippet name) = false →
      handleSelectSkill name prev = jsTrim prev ++ " " ++ skillSnippet name ++ " ") ∧
    handleSelectSkill name (handleSelectSkill name prev) = handleSelectSkill name prev := by
  have hSne : (skillSnippet name).data ≠ [] := skillSnippet_data_ne_nil name
  have hSfix : (skillSnippet name).data.dropWhile Char.isWhitespace
      = (skillSnippet name).data := by
    rw [skillSnippet_data]
    exact List.dropWhile_cons_of_neg (by decide)
  have htrS : jsTrim (skillSnippet name ++ " ") = skillSnippet name := by
    rw [strEq_iff_data, jsTrim_data, String.data_append, space_data]
    unfold trimChars
    rw [rightTrim_concat_ws (by decide), hname]
    exact hSfix
  refine ⟨?_, ?_, ?_, ?_⟩
  · intro h
    simp [handleSelectSkill, h]
  · intro h
    have hne : jsTrim prev ≠ "" := by
      intro h0
      rw [h0] at h
      obtain ⟨u, v, huv⟩ := jsIncludes_true_iff.mp h
      rw [empty_data] at huv
      simp [List.append_eq_nil] at huv
      exact hSne huv.2.1
    simp [handleSelectSkill, hne, h]
  · intro h1 h2
    simp [handleSelectSkill, h1, h2]
  · by_cases h1 : jsTrim prev = ""
    · have hfp : handleSelectSkill name prev = skillSnippet name ++ " " := by
        simp [handleSelectSkill, h1]
      rw [hfp]
      have hne2 : jsTrim (skillSnippet name ++ " ") ≠ "" := by
        rw [htrS]
        intro h0
        exact hSne (by simpa [empty_data] using strEq_iff_data.mp h0)
      have hinc : jsIncludes (jsTrim (skillSnippet name ++ " ")) (skillSnippet name)
          = true := by
        rw [htrS, jsIncludes_true_iff]
      simp [handleSelectSkill, hne2, hinc]
    · by_cases h2 : jsIncludes (jsTrim prev) (skillSnippet name) = true
      · have hfp : handleSelectSkill name prev = prev := by
          simp [handleSelectSkill, h1, h2]
        rw [hfp, hfp]
      · have hXne : trimChars prev.data ≠ [] := by
          intro h0
          apply h1
          rw [strEq_iff_data, jsTrim_data, h0, empty_data]
        have hfp : handleSelectSkill name prev
            = jsTrim prev ++ " " ++ skillSnippet name ++ " " := by
          simp [handleSelectSkill, h1, h2]
        rw [hfp]
        have hdata : (jsTrim prev ++ " " ++ skillSnippet name ++ " ").data
            = trimChars prev.data ++ [' '] ++ (skillSnippet name).data ++ [' '] := by
          simp [String.data_append, jsTrim_data, space_data]
        have htr2 : jsTrim (jsTrim prev ++ " " ++ skillSnippet name ++ " ")
            = String.mk (trimChars prev.data ++ [' '] ++ (skillSnippet name).data) := by
          rw [strEq_iff_data, jsTrim_data, hdata]
          exact trimChars_glue (trimChars_dropWhile_fixed prev.data) hXne hname hSne
        have hne2 : jsTrim (jsTrim prev ++ " " ++ skillSnippet name ++ " ") ≠ "" := by
          rw [htr2]
          intro h0
          have h0' : trimChars prev.data ++ [' '] ++ (skillSnippet name).data = [] := by
            simpa [empty_data] using strEq_iff_data.mp h0
          simp [List.append_eq_nil] at h0'
        have hinc2 : jsIncludes (jsTrim (jsTrim prev ++ " " ++ skillSnippet name ++ " "))
            (skillSnippet name) = true := by
          rw [htr2, jsIncludes_true_iff]
          exact ⟨trimChars prev.data ++ [' '], [], by simp⟩
        simp [handleSelectSkill, hne2, hinc2]

theorem selectSkill_spec_witness :
    rightTrimChars (skillSnippet "ship").data = (skillSnippet "ship").data ∧
    handleSelectSkill "ship" (handleSelectSkill "ship" "hello")
      = handleSelectSkill "ship" "hello" := by
  constructor
  · decide
  · exact (selectSkill_spec "ship" "hello" (by decide)).2.2.2

/-!
Association-list lemmas for the Registry state.
-/

theorem lookupA_mem {α : Type} {k : Nat} {v : α} :
    ∀ {l : List (Nat × α)}, lookupA k l = some v → (k, v) ∈ l := by
  intro l
  induction l with
  | nil => intro h; simp [lookupA] at h
  | cons p rest ih =>
    intro h
    obtain ⟨k', v'⟩ := p
    by_cases hk : k' = k
    · rw [lookupA, if_pos hk] at h
      injection h with h2
      subst hk
      subst h2
      exact List.mem_cons_self _ _
    · rw [lookupA, if_neg hk] at h
      exact List.mem_cons_of_mem _ (ih h)

theorem lookupA_eq_none {α : Type} {k : Nat} :
    ∀ {l : List (Nat × α)}, lookupA k l = none → ∀ v : α, (k, v) ∉ l := by
  intro l
  induction l with
  | nil => intro _ v hv; simp at hv
  | cons p rest ih =>
    intro h v hv
    obtain ⟨k', v'⟩ := p
    by_cases hk : k' = k
    · rw [lookupA, if_pos hk] at h
      exact Option.noConfusion h
    · rw [lookupA, if_neg hk] at h
      rcases List.mem_cons.mp hv with heq | hmem
      · exact hk (congrArg Prod.fst heq).symm
      · exact ih h v hmem

theorem map_fst_updateA {α : Type} (k : Nat) (v : α) :
    ∀ l : List (Nat × α), (updateA k v l).map Prod.fst = l.map Prod.fst := by
  intro l
  induction l with
  | nil => rfl
  | cons p rest ih =>
    obtain ⟨k', v'⟩ := p
    by_cases hk : k' = k
    · rw [updateA, if_pos hk]
      simp [hk]
    · rw [updateA, if_neg hk]
      simp [ih]

theorem lookupA_updateA_self {α : Type} {k : Nat} (v : α) :
    ∀ {l : List (Nat × α)} {w : α}, lookupA k l = some w →
      lookupA k (updateA k v l) = some v := by
  intro l
  induction l with
  | nil => intro w h; simp [lookupA] at h
  | cons p rest ih =>
    intro w h
    obtain ⟨k', v'⟩ := p
    by_cases hk : k' = k
    · rw [updateA, if_pos hk, lookupA, if_pos rfl]
    · rw [updateA, if_neg hk, lookupA, if_neg hk]
      rw [lookupA, if_neg hk] at h
      exact ih h

theorem lookupA_updateA_ne {α : Type} {k k' : Nat} (v : α) (hne : k' ≠ k) :
    ∀ l : List (Nat × α), lookupA k' (updateA k v l) = lookupA k' l := by
  intro l
  induction l with
  | nil => rfl
  | cons p rest ih =>
    obtain ⟨k₁, v₁⟩ := p
    by_cases hk : k₁ = k
    · subst hk
      rw [updateA, if_pos rfl, lookupA, if_neg (fun h => hne h.symm), lookupA,
        if_neg (fun h => hne h.symm)]
    · rw [updateA, if_neg hk]
      by_cases hk' : k₁ = k'
      · rw [lookupA, if_pos hk', lookupA, if_pos hk']
      · rw [lookupA, if_neg hk', lookupA, if_neg hk']
        exact ih

theorem mem_updateA_strong {α : Type} {k : Nat} {v : α} :
    ∀ {l : List (Nat × α)}, (l.map Prod.fst).Nodup →
      ∀ {p : Nat × α}, p ∈ updateA k v l →
        p = (k, v) ∨ (p ∈ l ∧ p.1 ≠ k) := by
  intro l
  induction l with
  | nil => intro _ p hp; simp [updateA] at hp
  | cons q rest ih =>
    intro hn p hp
    obtain ⟨k₁, v₁⟩ := q
    rw [List.map_cons, List.nodup_cons] at hn
    by_cases hk : k₁ = k
    · rw [updateA, if_pos hk] at hp
      rcases List.mem_cons.mp hp with heq | hmem
      · exact Or.inl heq
      · refine Or.inr ⟨List.mem_cons_of_mem _ hmem, ?_⟩
        intro hpk
        apply hn.1
        have hm : p.1 ∈ rest.map Prod.fst := List.mem_map_of_mem Prod.fst hmem
        rw [hpk] at hm
        rw [hk]
        exact hm
    · rw [updateA, if_neg hk] at hp
      rcases List.mem_cons.mp hp with heq | hmem
      · exact Or.inr ⟨by rw [heq]; exact List.mem_cons_self _ _, by rw [heq]; exact hk⟩
      · rcases ih hn.2 hmem with h | ⟨h1, h2⟩
        · exact Or.inl h
        · exact Or.inr ⟨List.mem_cons_of_mem _ h1, h2⟩

theorem updateA_split {α : Type} {k : Nat} {v₀ : α} :
    ∀ {l : List (Nat × α)}, lookupA k l = some v₀ →
      ∃ l₁ l₂, l = l₁ ++ (k, v₀) :: l₂ ∧
        (∀ v : α, updateA k v l = l₁ ++ (k, v) :: l₂) := by
  intro l
  induction l with
  | nil => intro h; simp [lookupA] at h
  | cons p rest ih =>
    intro h
    obtain ⟨k₁, v₁⟩ := p
    by_cases hk : k₁ = k
    · rw [lookupA, if_pos hk] at h
      injection h with h2
      refine ⟨[], rest, ?_, ?_⟩
      · rw [List.nil_append, hk, h2]
      · intro v
        rw [updateA, if_pos hk, List.nil_append]
    · rw [lookupA, if_neg hk] at h
      obtain ⟨l₁, l₂, heq, hupd⟩ := ih h
      refine ⟨(k₁, v₁) :: l₁, l₂, ?_, ?_⟩
      · rw [List.cons_append, ← heq]
      · intro v
        rw [updateA, if_neg hk, hupd v, List.cons_append]

theorem removeA_sublist {α : Type} (k : Nat) :
    ∀ l : List (Nat × α), List.Sublist (removeA k l) l := by
  intro l
  induction l with
  | nil => simp [removeA]
  | cons p rest ih =>
    obtain ⟨k₁, v₁⟩ := p
    by_cases hk : k₁ = k
    · rw [removeA, if_pos hk]
      exact List.sublist_cons_self _ _
    · rw [removeA, if_neg hk]
      exact ih.cons₂ _

theorem lookupA_removeA_ne {α : Type} {k k' : Nat} (hne : k' ≠ k) :
    ∀ l : List (Nat × α), lookupA k' (removeA k l) = lookupA k' l := by
  intro l
  induction l with
  | nil => rfl
  | cons p rest ih =>
    obtain ⟨k₁, v₁⟩ := p
    by_cases hk : k₁ = k
    · rw [removeA, if_pos hk, lookupA, if_neg (by rw [hk]; exact fun h => hne h.symm)]
    · rw [removeA, if_neg hk]
      by_cases hk' : k₁ = k'
      · rw [lookupA, if_pos hk', lookupA, if_pos hk']
      · rw [lookupA, if_neg hk', lookupA, if_neg hk']
        exact ih

theorem lookupA_append_some {α : Type} {k : Nat} {v : α} :
    ∀ {l₁ : List (Nat × α)} (l₂ : List (Nat × α)), lookupA k l₁ = some v →
      lookupA k (l₁ ++ l₂) = some v := by
  intro l₁
  induction l₁ with
  | nil => intro l₂ h; simp [lookupA] at h
  | cons p rest ih =>
    intro l₂ h
    obtain ⟨k₁, v₁⟩ := p
    by_cases hk : k₁ = k
    · rw [lookupA, if_pos hk] at h
      rw [List.cons_append, lookupA, if_pos hk]
      exact h
    · rw [lookupA, if_neg hk] at h
      rw [List.cons_append, lookupA, if_neg hk]
      exact ih l₂ h

theorem keys_unique {α : Type} {l : List (Nat × α)} (hn : (l.map Prod.fst).Nodup)
    {k : Nat} {v w : α} (h1 : (k, v) ∈ l) (h2 : (k, w) ∈ l) : v = w := by
  induction l with
  | nil => simp at h1
  | cons p rest ih =>
    rw [List.map_cons, List.nodup_cons] at hn
    rcases List.mem_cons.mp h1 with e1 | m1 <;> rcases List.mem_cons.mp h2 with e2 | m2
    · exact congrArg Prod.snd (e1.trans e2.symm)
    · exfalso
      apply hn.1
      have hk1 : k = p.1 := congrArg Prod.fst e1
      have hm : (k, w).1 ∈ rest.map Prod.fst := List.mem_map_of_mem Prod.fst m2
      rw [← hk1]
      exact hm
    · exfalso
      apply hn.1
      have hk1 : k = p.1 := congrArg Prod.fst e2
      have hm : (k, v).1 ∈ rest.map Prod.fst := List.mem_map_of_mem Prod.fst m1
      rw [← hk1]
      exact hm
    · exact ih hn.2 m1 m2

/-!
Counting and sequence-number lemmas.
-/

theorem pendingFor_append (sid : Nat) (l₁ l₂ : List (Nat × ApprovalRequest)) :
    pendingFor sid (l₁ ++ l₂) = pendingFor sid l₁ + pendingFor sid l₂ := by
  simp [pendingFor, List.filter_append]

theorem pendingFor_cons (sid : Nat) (q : Nat × ApprovalRequest)
    (l : List (Nat × ApprovalRequest)) :
    pendingFor sid (q :: l)
      = (if isPendingFor sid q then 1 else 0) + pendingFor sid l := by
  by_cases h : isPendingFor sid q
  · simp [pendingFor, List.filter_cons, h]
    omega
  · simp [pendingFor, List.filter_cons, h]

theorem pendingFor_single (sid : Nat) (q : Nat × ApprovalRequest) :
    pendingFor sid [q] = if isPendingFor sid q then 1 else 0 := by
  by_cases h : isPendingFor sid q <;> simp [pendingFor, List.filter_cons, h]

theorem pendingFor_pos {sid : Nat} {l : List (Nat × ApprovalRequest)}
    {q : Nat × ApprovalRequest} (hq : q ∈ l) (hp : isPendingFor sid q = true) :
    0 < pendingFor sid l := by
  have hm : q ∈ l.filter (isPendingFor sid) := List.mem_filter.mpr ⟨hq, hp⟩
  exact List.length_pos.mpr (List.ne_nil_of_mem hm)

theorem pendingFor_zero_of_sid_lt {n : Nat} {l : List (Nat × ApprovalRequest)}
    (h : ∀ q ∈ l, (q : Nat × ApprovalRequest).2.sessionId < n) :
    pendingFor n l = 0 := by
  rw [pendingFor, List.length_eq_zero, List.filter_eq_nil_iff]
  intro q hq
  simp [isPendingFor]
  intro hsid
  exact absurd hsid (Nat.ne_of_lt (h q hq))

theorem isPendingFor_ne_sid {sid : Nat} {q : Nat × ApprovalRequest}
    (h : q.2.sessionId ≠ sid) : isPendingFor sid q = false := by
  simp [isPendingFor]
  intro hsid
  exact absurd hsid h

theorem seq_map_append {log : List Event}
    (h : log.map Event.seq = List.range' 1 log.length) {e : Event}
    (he : e.seq = log.length + 1) :
    (log ++ [e]).map Event.seq = List.range' 1 (log ++ [e]).length := by
  rw [List.map_append, h, List.length_append]
  simp [he, List.range'_concat, Nat.add_comm]

theorem status_active_of_flags {st : SessionStatus} (ht : st.isTerminal = false)
    (ha : st ≠ SessionStatus.awaitingApproval) :
    st = SessionStatus.running ∨ st = SessionStatus.created := by
  cases st <;> simp_all [SessionStatus.isTerminal]

/-!
Shape lemmas for the Registry operations.
-/

theorem appendEvent_ok_shape {sid : Nat} {d : EventData} {reg reg' : Registry}
    (hok : appendEvent sid d reg = Except.ok reg') :
    ∃ s : Session, lookupA sid reg.sessions = some s ∧ s.status.isTerminal = false ∧
      s.status ≠ SessionStatus.awaitingApproval ∧
      ∃ v : Session, reg'.sessions = updateA sid v reg.sessions := by
  unfold appendEvent at hok
  split at hok
  · exact Except.noConfusion hok
  · rename_i s hl
    split at hok
    · exact Except.noConfusion hok
    · split at hok
      · exact Except.noConfusion hok
      · rename_i ht ha
        split at hok
        · injection hok with hok
          exact ⟨s, hl, by simpa using ht, ha, _, by rw [← hok]⟩
        · injection hok with hok
          exact ⟨s, hl, by simpa using ht, ha, _, by rw [← hok]⟩

theorem abortSession_ok_shape {sid : Nat} {reg reg' : Registry}
    (hok : abortSession sid reg = Except.ok reg') :
    ∃ s : Session, lookupA sid reg.sessions = some s ∧ s.status.isTerminal = false ∧
      reg'.sessions
        = updateA sid { s with status := SessionStatus.aborted } reg.sessions := by
  unfold abortSession at hok
  split at hok
  · exact Except.noConfusion hok
  · rename_i s hl
    split at hok
    · exact Except.noConfusion hok
    · rename_i ht
      injection hok with hok
      exact ⟨s, hl, by simpa using ht, by rw [← hok]⟩

theorem deleteSession_ok_shape {sid : Nat} {reg reg' : Registry}
    (hok : deleteSession sid reg = Except.ok reg') :
    reg'.sessions = removeA sid reg.sessions ∧ reg'.approvals = reg.approvals := by
  unfold deleteSession at hok
  split at hok
  · exact Except.noConfusion hok
  · split at hok
    · injection hok with hok
      exact ⟨by rw [← hok], by rw [← hok]⟩
    · exact Except.noConfusion hok

theorem decideApproval_ok_shape {rid : Nat} {b : Bool} {reg reg' : Registry}
    (hok : decideApproval rid b reg = Except.ok reg') :
    reg'.sessions = reg.sessions ∨
      ∃ (k : Nat) (s : Session), lookupA k reg.sessions = some s ∧
        s.status = SessionStatus.awaitingApproval ∧
        ∃ v : Session, reg'.sessions = updateA k v reg.sessions := by
  unfold decideApproval at hok
  split at hok
  · exact Except.noConfusion hok
  · rename_i req hr
    split at hok
    · exact Except.noConfusion hok
    · split at hok
      · split at hok
        · injection hok with hok
          exact Or.inl (by rw [← hok])
        · rename_i s hls
          split at hok
          · rename_i hst
            injection hok with hok
            exact Or.inr ⟨req.sessionId, s, hls, hst, _, by rw [← hok]⟩
          · injection hok with hok
            exact Or.inl (by rw [← hok])
      · split at hok
        · injection hok with hok
          exact Or.inl (by rw [← hok])
        · rename_i s hls
          split at hok
          · rename_i hst
            injection hok with hok
            exact Or.inr ⟨req.sessionId, s, hls, hst, _, by rw [← hok]⟩
          · injection hok with hok
            exact Or.inl (by rw [← hok])

theorem appendEvent_terminal {sid : Nat} {s : Session} {reg : Registry}
    (hs : lookupA sid reg.sessions = some s) (hterm : s.status.isTerminal = true)
    (d : EventData) :
    appendEvent sid d reg = Except.error OrchError.invalidState := by
  unfold appendEvent
  rw [hs]
  simp [hterm]

theorem nodup_concat_of_lt {l : List Nat} {n : Nat} (hn : l.Nodup)
    (hlt : ∀ x ∈ l, x < n) : (l ++ [n]).Nodup := by
  rw [List.nodup_append]
  refine ⟨hn, List.nodup_singleton n, ?_⟩
  intro x hx hx2
  rw [List.mem_singleton] at hx2
  exact absurd hx2 (Nat.ne_of_lt (hlt x hx))

theorem pendingFor_updateA {l : List (Nat × ApprovalRequest)} {rid : Nat}
    {req : ApprovalRequest} (hr : lookupA rid l = some req)
    (req' : ApprovalRequest) (sid : Nat) :
    pendingFor sid (updateA rid req' l) + (if isPendingFor sid (rid, req) then 1 else 0)
      = pendingFor sid l + (if isPendingFor sid (rid, req') then 1 else 0) := by
  obtain ⟨l₁, l₂, heq, hupd⟩ := updateA_split hr
  rw [hupd req', heq, pendingFor_append, pendingFor_append, pendingFor_cons,
    pendingFor_cons]
  by_cases h1 : isPendingFor sid (rid, req) <;>
    by_cases h2 : isPendingFor sid (rid, req') <;> simp [h1, h2] <;> omega

/-- The invariant is preserved by `createSession`. -/
theorem regInv_create {reg : Registry} (h : RegInv reg) (wid : Nat) (k : SessionKind) :
    RegInv (createSession wid k reg) := by
  refine ⟨?_, ?_, ?_, ?_, ?_, ?_, ?_, ?_⟩
  · intro p hp
    rcases List.mem_append.mp hp with hm | hm
    · exact h.seqs p hm
    · rw [List.mem_singleton] at hm
      rw [hm]
      simp
  · show ((reg.sessions ++ _).map Prod.fst).Nodup
    rw [List.map_append]
    exact nodup_concat_of_lt h.skeysNodup (fun x hx => by
      obtain ⟨p, hp, hpx⟩ := List.mem_map.mp hx
      rw [← hpx]
      exact h.skeysLt p hp)
  · intro p hp
    rcases List.mem_append.mp hp with hm | hm
    · exact Nat.lt_succ_of_lt (h.skeysLt p hm)
    · rw [List.mem_singleton] at hm
      rw [hm]
      exact Nat.lt_succ_self _
  · exact h.akeysNodup
  · exact h.akeysLt
  · intro q hq
    exact Nat.lt_succ_of_lt (h.apprSidLt q hq)
  · intro p hp hst
    rcases List.mem_append.mp hp with hm | hm
    · exact h.gateOne p hm hst
    · rw [List.mem_singleton] at hm
      rw [hm] at hst
      simp at hst
  · intro p hp hst
    rcases List.mem_append.mp hp with hm | hm
    · exact h.gateZero p hm hst
    · rw [List.mem_singleton] at hm
      rw [hm]
      exact pendingFor_zero_of_sid_lt h.apprSidLt

/-- The invariant is preserved by a successful `abortSession`. -/
theorem regInv_abortSession {reg reg' : Registry} {sid : Nat} (h : RegInv reg)
    (hok : abortSession sid reg = Except.ok reg') : RegInv reg' := by
  unfold abortSession at hok
  split at hok
  · exact Except.noConfusion hok
  · rename_i s hl
    split at hok
    · exact Except.noConfusion hok
    · injection hok with hok
      subst hok
      refine ⟨?_, ?_, ?_, h.akeysNodup, h.akeysLt, h.apprSidLt, ?_, ?_⟩
      · intro p hp
        rcases mem_updateA_strong h.skeysNodup hp with hpe | ⟨hpm, _⟩
        · rw [hpe]
          simpa using h.seqs (sid, s) (lookupA_mem hl)
        · exact h.seqs p hpm
      · show ((updateA sid _ reg.sessions).map Prod.fst).Nodup
        rw [map_fst_updateA]
        exact h.skeysNodup
      · intro p hp
        rcases mem_updateA_strong h.skeysNodup hp with hpe | ⟨hpm, _⟩
        · rw [hpe]
          exact h.skeysLt (sid, s) (lookupA_mem hl)
        · exact h.skeysLt p hpm
      · intro p hp hst
        rcases mem_updateA_strong h.skeysNodup hp with hpe | ⟨hpm, _⟩
        · rw [hpe] at hst
          simp at hst
        · exact h.gateOne p hpm hst
      · intro p hp hst
        rcases mem_updateA_strong h.skeysNodup hp with hpe | ⟨hpm, _⟩
        · rw [hpe] at hst
          rcases hst with hst | hst <;> simp at hst
        · exact h.gateZero p hpm hst

/-- The invariant is preserved by a successful `deleteSession`. -/
theorem regInv_deleteSession {reg reg' : Registry} {sid : Nat} (h : RegInv reg)
    (hok : deleteSession sid reg = Except.ok reg') : RegInv reg' := by
  unfold deleteSession at hok
  split at hok
  · exact Except.noConfusion hok
  · split at hok
    · injection hok with hok
      subst hok
      have hsub := removeA_sublist sid reg.sessions
      refine ⟨?_, ?_, ?_, h.akeysNodup, h.akeysLt, h.apprSidLt, ?_, ?_⟩
      · intro p hp
        exact h.seqs p (hsub.subset hp)
      · exact List.Nodup.sublist (hsub.map Prod.fst) h.skeysNodup
      · intro p hp
        exact h.skeysLt p (hsub.subset hp)
      · intro p hp hst
        exact h.gateOne p (hsub.subset hp) hst
      · intro p hp hst
        exact h.gateZero p (hsub.subset hp) hst
    · exact Except.noConfusion hok

/-- Resolving a pending request whose session is absent or not awaiting
preserves the invariant. -/
theorem regInv_resolve_noawait {reg : Registry} (h : RegInv reg) {rid : Nat}
    {req : ApprovalRequest} (hr : lookupA rid reg.approvals = some req)
    (hp : req.decision = Decision.pending) {req' : ApprovalRequest}
    (hsid : req'.sessionId = req.sessionId) (hnd : req'.decision ≠ Decision.pending)
    (hnoaw : ∀ s : Session, lookupA req.sessionId reg.sessions = some s →
      s.status ≠ SessionStatus.awaitingApproval) :
    RegInv { reg with approvals := updateA rid req' reg.approvals } := by
  have hfalse : ∀ sid : Nat, isPendingFor sid (rid, req') = false := by
    intro sid
    simp [isPendingFor]
    intro _
    exact hnd
  have hcnt : ∀ sid : Nat, pendingFor sid (updateA rid req' reg.approvals)
      + (if isPendingFor sid (rid, req) then 1 else 0) = pendingFor sid reg.approvals := by
    intro sid
    have hc := pendingFor_updateA hr req' sid
    rw [hfalse sid] at hc
    simpa using hc
  have hkeep : ∀ sid : Nat, req.sessionId ≠ sid →
      pendingFor sid (updateA rid req' reg.approvals) = pendingFor sid reg.approvals := by
    intro sid hne
    have hc := hcnt sid
    rw [isPendingFor_ne_sid hne] at hc
    simpa using hc
  refine ⟨h.seqs, h.skeysNodup, h.skeysLt, ?_, ?_, ?_, ?_, ?_⟩
  · show ((updateA rid req' reg.approvals).map Prod.fst).Nodup
    rw [map_fst_updateA]
    exact h.akeysNodup
  · intro q hq
    rcases mem_updateA_strong h.akeysNodup hq with hqe | ⟨hqm, _⟩
    · rw [hqe]
      exact h.akeysLt (rid, req) (lookupA_mem hr)
    · exact h.akeysLt q hqm
  · intro q hq
    rcases mem_updateA_strong h.akeysNodup hq with hqe | ⟨hqm, _⟩
    · rw [hqe]
      show req'.sessionId < reg.nextSessionId
      rw [hsid]
      exact h.apprSidLt (rid, req) (lookupA_mem hr)
    · exact h.apprSidLt q hqm
  · intro p hpm hst
    by_cases hne : req.sessionId = p.1
    · exfalso
      cases hls : lookupA req.sessionId reg.sessions with
      | none =>
        apply lookupA_eq_none hls p.2
        rw [hne, Prod.mk.eta]
        exact hpm
      | some s =>
        have hps : p.2 = s := by
          apply keys_unique h.skeysNodup (k := p.1)
          · rw [Prod.mk.eta]
            exact hpm
          · rw [← hne]
            exact lookupA_mem hls
        apply hnoaw s hls
        rw [← hps]
        exact hst
    · rw [hkeep p.1 hne]
      exact h.gateOne p hpm hst
  · intro p hpm hst
    by_cases hne : req.sessionId = p.1
    · exfalso
      cases hls : lookupA req.sessionId reg.sessions with
      | none =>
        apply lookupA_eq_none hls p.2
        rw [hne, Prod.mk.eta]
        exact hpm
      | some s =>
        have hps : p.2 = s := by
          apply keys_unique h.skeysNodup (k := p.1)
          · rw [Prod.mk.eta]
            exact hpm
          · rw [← hne]
            exact lookupA_mem hls
        have h0 : pendingFor p.1 reg.approvals = 0 := h.gateZero p hpm hst
        have hpos : 0 < pendingFor p.1 reg.approvals := by
          apply pendingFor_pos (lookupA_mem hr)
          simp [isPendingFor, hne, hp]
        omega
    · rw [hkeep p.1 hne]
      exact h.gateZero p hpm hst

/-- Resolving the pending request of an awaiting session returns the session
to `running` and preserves the invariant, for any well-numbered new log. -/
theorem regInv_resolve_awaiting {reg : Registry} (h : RegInv reg) {rid : Nat}
    {req : ApprovalRequest} (hr : lookupA rid reg.approvals = some req)
    (hp : req.decision = Decision.pending) {req' : ApprovalRequest}
    (hsid : req'.sessionId = req.sessionId) (hnd : req'.decision ≠ Decision.pending)
    {s : Session} (hls : lookupA req.sessionId reg.sessions = some s)
    (hst : s.status = SessionStatus.awaitingApproval) {log : List Event}
    (hlog : log.map Event.seq = List.range' 1 log.length) :
    RegInv { reg with
      approvals := updateA rid req' reg.approvals,
      sessions := updateA req.sessionId
        { s with status := SessionStatus.running, log := log } reg.sessions } := by
  have hfalse : ∀ sid : Nat, isPendingFor sid (rid, req') = false := by
    intro sid
    simp [isPendingFor]
    intro _
    exact hnd
  have hcnt : ∀ sid : Nat, pendingFor sid (updateA rid req' reg.approvals)
      + (if isPendingFor sid (rid, req) then 1 else 0) = pendingFor sid reg.approvals := by
    intro sid
    have hc := pendingFor_updateA hr req' sid
    rw [hfalse sid] at hc
    simpa using hc
  have hkeep : ∀ sid : Nat, req.sessionId ≠ sid →
      pendingFor sid (updateA rid req' reg.approvals) = pendingFor sid reg.approvals := by
    intro sid hne
    have hc := hcnt sid
    rw [isPendingFor_ne_sid hne] at hc
    simpa using hc
  refine ⟨?_, ?_, ?_, ?_, ?_, ?_, ?_, ?_⟩
  · intro p hp
    rcases mem_updateA_strong h.skeysNodup hp with hpe | ⟨hpm, _⟩
    · rw [hpe]
      exact hlog
    · exact h.seqs p hpm
  · show ((updateA req.sessionId _ reg.sessions).map Prod.fst).Nodup
    rw [map_fst_updateA]
    exact h.skeysNodup
  · intro p hp
    rcases mem_updateA_strong h.skeysNodup hp with hpe | ⟨hpm, _⟩
    · rw [hpe]
      exact h.skeysLt (req.sessionId, s) (lookupA_mem hls)
    · exact h.skeysLt p hpm
  · show ((updateA rid req' reg.approvals).map Prod.fst).Nodup
    rw [map_fst_updateA]
    exact h.akeysNodup
  · intro q hq
    rcases mem_updateA_strong h.akeysNodup hq with hqe | ⟨hqm, _⟩
    · rw [hqe]
      exact h.akeysLt (rid, req) (lookupA_mem hr)
    · exact h.akeysLt q hqm
  · intro q hq
    rcases mem_updateA_strong h.akeysNodup hq with hqe | ⟨hqm, _⟩
    · rw [hqe]
      show req'.sessionId < reg.nextSessionId
      rw [hsid]
      exact h.apprSidLt (rid, req) (lookupA_mem hr)
    · exact h.apprSidLt q hqm
  · intro p hpmem hst2
    rcases mem_updateA_strong h.skeysNodup hpmem with hpe | ⟨hpm, hne⟩
    · rw [hpe] at hst2
      simp at hst2
    · rw [hkeep p.1 (fun he => hne (he ▸ rfl))]
      exact h.gateOne p hpm hst2
  · intro p hpmem hst2
    rcases mem_updateA_strong h.skeysNodup hpmem with hpe | ⟨hpm, hne⟩
    · have hone : pendingFor req.sessionId reg.approvals = 1 :=
        h.gateOne (req.sessionId, s) (lookupA_mem hls) hst
      have hc := hcnt req.sessionId
      have htrue : isPendingFor req.sessionId (rid, req) = true := by
        simp [isPendingFor, hp]
      simp only [htrue, if_true] at hc
      have hp1 : p.1 = req.sessionId := congrArg Prod.fst hpe
      have hz : pendingFor req.sessionId (updateA rid req' reg.approvals) = 0 := by
        omega
      show pendingFor p.1 (updateA rid req' reg.approvals) = 0
      rw [hp1]
      exact hz
    · rw [hkeep p.1 (fun he => hne (he ▸ rfl))]
      exact h.gateZero p hpm hst2

/-- The invariant is preserved by a successful `decideApproval`. -/
theorem regInv_decideApproval {reg reg' : Registry} {rid : Nat} {b : Bool}
    (h : RegInv reg) (hok : decideApproval rid b reg = Except.ok reg') : RegInv reg' := by
  unfold decideApproval at hok
  split at hok
  · exact Except.noConfusion hok
  · rename_i req hr
    split at hok
    · exact Except.noConfusion hok
    · rename_i hpn
      have hp : req.decision = Decision.pending := not_ne_iff.mp hpn
      split at hok
      · split at hok
        · rename_i hls
          injection hok with hok
          subst hok
          apply regInv_resolve_noawait h hr hp
          · rfl
          · simp
          · intro s hs
            rw [hls] at hs
            exact Option.noConfusion hs
        · rename_i s hls
          split at hok
          · rename_i hst
            injection hok with hok
            subst hok
            apply regInv_resolve_awaiting h hr hp
            · rfl
            · simp
            · exact hls
            · exact hst
            · exact h.seqs (req.sessionId, s) (lookupA_mem hls)
          · rename_i hst
            injection hok with hok
            subst hok
            apply regInv_resolve_noawait h hr hp
            · rfl
            · simp
            · intro s2 hs2
              rw [hls] at hs2
              injection hs2 with hs2
              rw [← hs2]
              exact hst
      · split at hok
        · rename_i hls
          injection hok with hok
          subst hok
          apply regInv_resolve_noawait h hr hp
          · rfl
          · simp
          · intro s hs
            rw [hls] at hs
            exact Option.noConfusion hs
        · rename_i s hls
          split at hok
          · rename_i hst
            injection hok with hok
            subst hok
            apply regInv_resolve_awaiting h hr hp
            · rfl
            · simp
            · exact hls
            · exact hst
            · exact seq_map_append (h.seqs (req.sessionId, s) (lookupA_mem hls)) rfl
          · rename_i hst
            injection hok with hok
            subst hok
            apply regInv_resolve_noawait h hr hp
            · rfl
            · simp
            · intro s2 hs2
              rw [hls] at hs2
              injection hs2 with hs2
              rw [← hs2]
              exact hst

/-- The invariant is preserved by a successful `appendEvent`. -/
theorem regInv_appendEvent {reg reg' : Registry} {sid : Nat} {d : EventData}
    (h : RegInv reg) (hok : appendEvent sid d reg = Except.ok reg') : RegInv reg' := by
  unfold appendEvent at hok
  split at hok
  · exact Except.noConfusion hok
  · rename_i s hl
    split at hok
    · exact Except.noConfusion hok
    · split at hok
      · exact Except.noConfusion hok
      · rename_i ht ha
        have hactive : s.status = SessionStatus.running ∨ s.status = SessionStatus.created :=
          status_active_of_flags (by simpa using ht) ha
        split at hok
        · injection hok with hok
          subst hok
          refine ⟨?_, ?_, ?_, ?_, ?_, ?_, ?_, ?_⟩
          · intro p hp
            rcases mem_updateA_strong h.skeysNodup hp with hpe | ⟨hpm, _⟩
            · rw [hpe]
              exact seq_map_append (h.seqs (sid, s) (lookupA_mem hl)) rfl
            · exact h.seqs p hpm
          · show ((updateA sid _ reg.sessions).map Prod.fst).Nodup
            rw [map_fst_updateA]
            exact h.skeysNodup
          · intro p hp
            rcases mem_updateA_strong h.skeysNodup hp with hpe | ⟨hpm, _⟩
            · rw [hpe]
              exact h.skeysLt (sid, s) (lookupA_mem hl)
            · exact h.skeysLt p hpm
          · show ((reg.approvals ++ _).map Prod.fst).Nodup
            rw [List.map_append]
            exact nodup_concat_of_lt h.akeysNodup (fun x hx => by
              obtain ⟨q, hq, hqx⟩ := List.mem_map.mp hx
              rw [← hqx]
              exact h.akeysLt q hq)
          · intro q hq
            rcases List.mem_append.mp hq with hm | hm
            · exact Nat.lt_succ_of_lt (h.akeysLt q hm)
            · rw [List.mem_singleton] at hm
              rw [hm]
              exact Nat.lt_succ_self _
          · intro q hq
            rcases List.mem_append.mp hq with hm | hm
            · exact h.apprSidLt q hm
            · rw [List.mem_singleton] at hm
              rw [hm]
              exact h.skeysLt (sid, s) (lookupA_mem hl)
          · intro p hp hst
            rcases mem_updateA_strong h.skeysNodup hp with hpe | ⟨hpm, hne⟩
            · have hz : pendingFor sid reg.approvals = 0 :=
                h.gateZero (sid, s) (lookupA_mem hl) hactive
              have hp1 : p.1 = sid := congrArg Prod.fst hpe
              show pendingFor p.1 (reg.approvals ++ [(reg.nextRequestId,
                { sessionId := sid, action := d.payload.actionOf,
                  decision := Decision.pending })]) = 1
              rw [hp1, pendingFor_append, hz, pendingFor_single,
                if_pos (by simp [isPendingFor])]
            · show pendingFor p.1 (reg.approvals ++ [(reg.nextRequestId,
                { sessionId := sid, action := d.payload.actionOf,
                  decision := Decision.pending })]) = 1
              rw [pendingFor_append, pendingFor_single,
                isPendingFor_ne_sid (fun he => hne he.symm)]
              simp [h.gateOne p hpm hst]
          · intro p hp hst
            rcases mem_updateA_strong h.skeysNodup hp with hpe | ⟨hpm, hne⟩
            · rw [hpe] at hst
              rcases hst with hst | hst <;> simp at hst
            · show pendingFor p.1 (reg.approvals ++ [(reg.nextRequestId,
                { sessionId := sid, action := d.payload.actionOf,
                  decision := Decision.pending })]) = 0
              rw [pendingFor_append, pendingFor_single,
                isPendingFor_ne_sid (fun he => hne he.symm)]
              simp [h.gateZero p hpm hst]
        · injection hok with hok
          subst hok
          refine ⟨?_, ?_, ?_, h.akeysNodup, h.akeysLt, h.apprSidLt, ?_, ?_⟩
          · intro p hp
            rcases mem_updateA_strong h.skeysNodup hp with hpe | ⟨hpm, _⟩
            · rw [hpe]
              exact seq_map_append (h.seqs (sid, s) (lookupA_mem hl)) rfl
            · exact h.seqs p hpm
          · show ((updateA sid _ reg.sessions).map Prod.fst).Nodup
            rw [map_fst_updateA]
            exact h.skeysNodup
          · intro p hp
            rcases mem_updateA_strong h.skeysNodup hp with hpe | ⟨hpm, _⟩
            · rw [hpe]
              exact h.skeysLt (sid, s) (lookupA_mem hl)
            · exact h.skeysLt p hpm
          · intro p hp hst
            rcases mem_updateA_strong h.skeysNodup hp with hpe | ⟨hpm, _⟩
            · rw [hpe] at hst
              exact absurd hst ha
            · exact h.gateOne p hpm hst
          · intro p hp hst
            rcases mem_updateA_strong h.skeysNodup hp with hpe | ⟨hpm, _⟩
            · have hp1 : p.1 = sid := congrArg Prod.fst hpe
              show pendingFor p.1 reg.approvals = 0
              rw [hp1]
              exact h.gateZero (sid, s) (lookupA_mem hl) hactive
            · exact h.gateZero p hpm hst

/-- The invariant is preserved by every serialized Registry step. -/
theorem regInv_step {reg : Registry} (h : RegInv reg) (op : ROp) :
    RegInv (stepR reg op) := by
  cases op with
  | create wid k => exact regInv_create h wid k
  | append sid d =>
    show RegInv (match appendEvent sid d reg with
      | Except.ok r => r
      | Except.error _ => reg)
    cases hok : appendEvent sid d reg with
    | ok r => exact regInv_appendEvent h hok
    | error _ => exact h
  | decide rid b =>
    show RegInv (match decideApproval rid b reg with
      | Except.ok r => r
      | Except.error _ => reg)
    cases hok : decideApproval rid b reg with
    | ok r => exact regInv_decideApproval h hok
    | error _ => exact h
  | abort sid =>
    show RegInv (match abortSession sid reg with
      | Except.ok r => r
      | Except.error _ => reg)
    cases hok : abortSession sid reg with
    | ok r => exact regInv_abortSession h hok
    | error _ => exact h
  | delete sid =>
    show RegInv (match deleteSession sid reg with
      | Except.ok r => r
      | Except.error _ => reg)
    cases hok : deleteSession sid reg with
    | ok r => exact regInv_deleteSession h hok
    | error _ => exact h

/-- The empty initial Registry satisfies the invariant. -/
theorem regInv_init : RegInv initRegistry := by
  refine ⟨?_, ?_, ?_, ?_, ?_, ?_, ?_, ?_⟩ <;> simp [initRegistry]

/-- Every state reachable by an interleaving of operations satisfies the
invariant. -/
theorem regInv_runOps (ops : List ROp) : RegInv (runOps ops initRegistry) := by
  have haux : ∀ (l : List ROp) (reg : Registry), RegInv reg → RegInv (l.foldl stepR reg) := by
    intro l
    induction l with
    | nil => intro reg h; exact h
    | cons op l ih =>
      intro reg h
      exact ih (stepR reg op) (regInv_step h op)
  exact haux ops initRegistry regInv_init

/-!
Claims C1 to C6, settled against the spec-modelled orchestration core.
-/

/-- Claim C1: for every session and under any interleaving of concurrent
sessions' operations, the sequence numbers of the appended events are
strictly increasing and contiguous from 1 — the log's sequence numbers are
exactly 1, 2, ..., n in order, so each append assigns the successor of the
last assigned number and nothing is skipped or reordered. -/
theorem runOps_seq_contiguous (ops : List ROp) (p : Nat × Session)
    (hp : p ∈ (runOps ops initRegistry).sessions) :
    p.2.log.map Event.seq = List.range' 1 p.2.log.length :=
  (regInv_runOps ops).seqs p hp

theorem runOps_seq_contiguous_witness :
    ((1, ({ workspaceId := 7, kind := SessionKind.remote, status := SessionStatus.running,
            log := [{ role := Role.user, payload := Payload.text "hello", seq := 1 },
                    { role := Role.agent, payload := Payload.text "done", seq := 2 }] }
        : Session))
      ∈ (runOps [ROp.create 7 SessionKind.remote,
          ROp.append 1 { role := Role.user, payload := Payload.text "hello" },
          ROp.append 1 { role := Role.agent, payload := Payload.text "done" }]
          initRegistry).sessions) ∧
    [({ role := Role.user, payload := Payload.text "hello", seq := 1 } : Event),
     { role := Role.agent, payload := Payload.text "done", seq := 2 }].map Event.seq
      = List.range' 1 2 := by
  constructor
  · decide
  · exact runOps_seq_contiguous
      [ROp.create 7 SessionKind.remote,
        ROp.append 1 { role := Role.user, payload := Payload.text "hello" },
        ROp.append 1 { role := Role.agent, payload := Payload.text "done" }]
      (1, { workspaceId := 7, kind := SessionKind.remote, status := SessionStatus.running,
            log := [{ role := Role.user, payload := Payload.text "hello", seq := 1 },
                    { role := Role.agent, payload := Payload.text "done", seq := 2 }] })
      (by decide)

/-- Claim C2: in every reachable Registry state, a session whose status is
`awaiting-approval` has exactly one outstanding unresolved Approval Request
referencing it. -/
theorem awaiting_one_pending (ops : List ROp) (p : Nat × Session)
    (hp : p ∈ (runOps ops initRegistry).sessions)
    (hst : p.2.status = SessionStatus.awaitingApproval) :
    pendingFor p.1 (runOps ops initRegistry).approvals = 1 :=
  (regInv_runOps ops).gateOne p hp hst

theorem awaiting_one_pending_witness :
    ((1, ({ workspaceId := 7, kind := SessionKind.remote,
            status := SessionStatus.awaitingApproval,
            log := [{ role := Role.agent, payload := Payload.approvalRequest "write",
                      seq := 1 }] } : Session))
      ∈ (runOps [ROp.create 7 SessionKind.remote,
          ROp.append 1 { role := Role.agent, payload := Payload.approvalRequest "write" }]
          initRegistry).sessions) ∧
    pendingFor 1 (runOps [ROp.create 7 SessionKind.remote,
        ROp.append 1 { role := Role.agent, payload := Payload.approvalRequest "write" }]
        initRegistry).approvals = 1 := by
  constructor
  · decide
  · exact awaiting_one_pending
      [ROp.create 7 SessionKind.remote,
        ROp.append 1 { role := Role.agent, payload := Payload.approvalRequest "write" }]
      (1, { workspaceId := 7, kind := SessionKind.remote,
            status := SessionStatus.awaitingApproval,
            log := [{ role := Role.agent, payload := Payload.approvalRequest "write",
                      seq := 1 }] })
      (by decide) (by decide)

/-- A terminal session is untouched by every step other than its deletion. -/
theorem stepR_keeps_terminal {reg : Registry} {sid : Nat} {s : Session}
    (hs : lookupA sid reg.sessions = some s) (hterm : s.status.isTerminal = true) :
    ∀ op : ROp, op ≠ ROp.delete sid → lookupA sid (stepR reg op).sessions = some s := by
  intro op hne
  cases op with
  | create wid k =>
    show lookupA sid (reg.sessions ++ _) = some s
    exact lookupA_append_some _ hs
  | append sid' d =>
    show lookupA sid (match appendEvent sid' d reg with
      | Except.ok r => r
      | Except.error _ => reg).sessions = some s
    cases hok : appendEvent sid' d reg with
    | error e => exact hs
    | ok r =>
      obtain ⟨s2, hl2, ht2, _, v, hsess⟩ := appendEvent_ok_shape hok
      rw [hsess]
      have hsid : sid' ≠ sid := by
        intro he
        subst he
        rw [hs] at hl2
        injection hl2 with hl2
        rw [← hl2] at ht2
        rw [hterm] at ht2
        exact Bool.noConfusion ht2
      rw [lookupA_updateA_ne v (fun he => hsid he.symm)]
      exact hs
  | decide rid b =>
    show lookupA sid (match decideApproval rid b reg with
      | Except.ok r => r
      | Except.error _ => reg).sessions = some s
    cases hok : decideApproval rid b reg with
    | error e => exact hs
    | ok r =>
      rcases decideApproval_ok_shape hok with hsame | ⟨k, s2, hl2, hst2, v, hsess⟩
      · rw [hsame]
        exact hs
      · rw [hsess]
        have hk : k ≠ sid := by
          intro he
          subst he
          rw [hs] at hl2
          injection hl2 with hl2
          rw [← hl2] at hst2
          rw [hst2] at hterm
          simp [SessionStatus.isTerminal] at hterm
        rw [lookupA_updateA_ne v (fun he => hk he.symm)]
        exact hs
  | abort sid' =>
    show lookupA sid (match abortSession sid' reg with
      | Except.ok r => r
      | Except.error _ => reg).sessions = some s
    cases hok : abortSession sid' reg with
    | error e => exact hs
    | ok r =>
      obtain ⟨s2, hl2, ht2, hsess⟩ := abortSession_ok_shape hok
      rw [hsess]
      have hsid : sid' ≠ sid := by
        intro he
        subst he
        rw [hs] at hl2
        injection hl2 with hl2
        rw [← hl2] at ht2
        rw [hterm] at ht2
        exact Bool.noConfusion ht2
      rw [lookupA_updateA_ne _ (fun he => hsid he.symm)]
      exact hs
  | delete sid' =>
    show lookupA sid (match deleteSession sid' reg with
      | Except.ok r => r
      | Except.error _ => reg).sessions = some s
    have hsid : sid' ≠ sid := fun he => hne (by rw [he])
    cases hok : deleteSession sid' reg with
    | error e => exact hs
    | ok r =>
      obtain ⟨hsess, _⟩ := deleteSession_ok_shape hok
      rw [hsess, lookupA_removeA_ne (fun he => hsid he.symm)]
      exact hs

/-- Claim C3: a terminal status (`completed`, `failed`, `aborted`) is
absorbing — every subsequent `appendEvent` on the session fails and no
operation other than deletion changes the session — and in particular a
successful `abortSession` puts the session into `aborted`, after which
`appendEvent` always fails. -/
theorem terminal_absorbing (reg : Registry) (sid : Nat) (s : Session)
    (hs : lookupA sid reg.sessions = some s) :
    (s.status.isTerminal = true →
      (∀ d : EventData, appendEvent sid d reg = Except.error OrchError.invalidState) ∧
      (∀ op : ROp, op ≠ ROp.delete sid → lookupA sid (stepR reg op).sessions = some s)) ∧
    (s.status.isTerminal = false →
      ∀ reg' : Registry, abortSession sid reg = Except.ok reg' →
        lookupA sid reg'.sessions = some { s with status := SessionStatus.aborted } ∧
        ∀ d : EventData, appendEvent sid d reg' = Except.error OrchError.invalidState) := by
  constructor
  · intro hterm
    exact ⟨fun d => appendEvent_terminal hs hterm d, stepR_keeps_terminal hs hterm⟩
  · intro _ reg' hok
    obtain ⟨s2, hl2, _, hsess⟩ := abortSession_ok_shape hok
    rw [hs] at hl2
    injection hl2 with hl2
    subst hl2
    have hlook : lookupA sid reg'.sessions
        = some { s with status := SessionStatus.aborted } := by
      rw [hsess]
      exact lookupA_updateA_self _ hs
    exact ⟨hlook, fun d => appendEvent_terminal hlook rfl d⟩

theorem terminal_absorbing_witness :
    appendEvent 1 { role := Role.user, payload := Payload.text "x" }
        { sessions := [(1, { workspaceId := 7, kind := SessionKind.remote,
                             status := SessionStatus.completed, log := [] })],
          approvals := [], nextSessionId := 2, nextRequestId := 1 }
      = Except.error OrchError.invalidState ∧
    lookupA 1 (stepR { sessions := [(1, { workspaceId := 7, kind := SessionKind.remote,
                                          status := SessionStatus.completed, log := [] })],
                       approvals := [], nextSessionId := 2, nextRequestId := 1 }
        (ROp.abort 1)).sessions
      = some { workspaceId := 7, kind := SessionKind.remote,
               status := SessionStatus.completed, log := [] } ∧
    lookupA 1 ({ sessions := [(1, { workspaceId := 7, kind := SessionKind.remote,
                                    status := SessionStatus.aborted, log := [] })],
                 approvals := [], nextSessionId := 2, nextRequestId := 1 }
        : Registry).sessions
      = some { workspaceId := 7, kind := SessionKind.remote,
               status := SessionStatus.aborted, log := [] } ∧
    appendEvent 1 { role := Role.user, payload := Payload.text "y" }
        { sessions := [(1, { workspaceId := 7, kind := SessionKind.remote,
                             status := SessionStatus.aborted, log := [] })],
          approvals := [], nextSessionId := 2, nextRequestId := 1 }
      = Except.error OrchError.invalidState := by
  have h1 := terminal_absorbing
    { sessions := [(1, { workspaceId := 7, kind := SessionKind.remote,
                         status := SessionStatus.completed, log := [] })],
      approvals := [], nextSessionId := 2, nextRequestId := 1 } 1
    { workspaceId := 7, kind := SessionKind.remote,
      status := SessionStatus.completed, log := [] } (by decide)
  have h2 := terminal_absorbing
    { sessions := [(1, { workspaceId := 7, kind := SessionKind.remote,
                         status := SessionStatus.running, log := [] })],
      approvals := [], nextSessionId := 2, nextRequestId := 1 } 1
    { workspaceId := 7, kind := SessionKind.remote,
      status := SessionStatus.running, log := [] } (by decide)
  have h2ab := h2.2 (by decide)
    { sessions := [(1, { workspaceId := 7, kind := SessionKind.remote,
                         status := SessionStatus.aborted, log := [] })],
      approvals := [], nextSessionId := 2, nextRequestId := 1 } rfl
  exact ⟨(h1.1 (by decide)).1 _, (h1.1 (by decide)).2 (ROp.abort 1) (by decide),
    h2ab.1, h2ab.2 _⟩

/-- A resolved request admits no second decision: `AlreadyResolved`. -/
theorem decideApproval_resolved {reg : Registry} {rid : Nat} {req : ApprovalRequest}
    (hr : lookupA rid reg.approvals = some req) (hnd : req.decision ≠ Decision.pending)
    (b : Bool) : decideApproval rid b reg = Except.error OrchError.alreadyResolved := by
  unfold decideApproval
  rw [hr]
  exact if_pos hnd

/-- Claim C4: the first `decideApproval` on a pending request succeeds and
records the decision (`approved` or `denied`); any second decision attempt
on the same request fails with `AlreadyResolved`, leaving the recorded
decision unchanged. -/
theorem decide_exactly_once (reg : Registry) (rid : Nat) (req : ApprovalRequest) (b : Bool)
    (hr : lookupA rid reg.approvals = some req) (hp : req.decision = Decision.pending) :
    ∃ reg' : Registry, decideApproval rid b reg = Except.ok reg' ∧
      lookupA rid reg'.approvals
        = some { req with decision := if b then Decision.approved else Decision.denied } ∧
      ∀ b' : Bool, decideApproval rid b' reg' = Except.error OrchError.alreadyResolved := by
  cases hls : lookupA req.sessionId reg.sessions with
  | none =>
    refine ⟨{ reg with
              approvals := updateA rid
                { req with decision := if b then Decision.approved else Decision.denied }
                reg.approvals },
      ?_, lookupA_updateA_self _ hr,
      fun b' => decideApproval_resolved (lookupA_updateA_self _ hr)
        (by cases b <;> simp) b'⟩
    simp [decideApproval, hr, hp, hls]
  | some s =>
    by_cases hst : s.status = SessionStatus.awaitingApproval
    · refine ⟨{ reg with
                approvals := updateA rid
                  { req with decision := if b then Decision.approved else Decision.denied }
                  reg.approvals,
                sessions := updateA req.sessionId
                  { s with status := SessionStatus.running,
                           log := if b then s.log
                                  else s.log ++ [denialEvent s.log.length] }
                  reg.sessions },
        ?_, lookupA_updateA_self _ hr,
        fun b' => decideApproval_resolved (lookupA_updateA_self _ hr)
          (by cases b <;> simp) b'⟩
      simp [decideApproval, hr, hp, hls, hst]
    · refine ⟨{ reg with
                approvals := updateA rid
                  { req with decision := if b then Decision.approved else Decision.denied }
                  reg.approvals },
        ?_, lookupA_updateA_self _ hr,
        fun b' => decideApproval_resolved (lookupA_updateA_self _ hr)
          (by cases b <;> simp) b'⟩
      simp [decideApproval, hr, hp, hls, hst]

theorem decide_exactly_once_witness :
    ∃ reg' : Registry,
      decideApproval 5 true
          { sessions := [],
            approvals := [(5, { sessionId := 1, action := "rm",
                                decision := Decision.pending })],
            nextSessionId := 1, nextRequestId := 6 }
        = Except.ok reg' ∧
      lookupA 5 reg'.approvals
        = some { sessionId := 1, action := "rm",
                 decision := if true then Decision.approved else Decision.denied } ∧
      ∀ b' : Bool, decideApproval 5 b' reg' = Except.error OrchError.alreadyResolved :=
  decide_exactly_once
    { sessions := [],
      approvals := [(5, { sessionId := 1, action := "rm",
                          decision := Decision.pending })],
      nextSessionId := 1, nextRequestId := 6 } 5
    { sessionId := 1, action := "rm", decision := Decision.pending } true
    (by decide) (by decide)

/-- Claim C5: resolving the pending Approval Request of an
`awaiting-approval` session with decision `denied` succeeds, returns the
session's status to `running`, appends a denial event to its log, and does
not terminate the session. -/
theorem denied_returns_running (reg : Registry) (sid rid : Nat) (s : Session)
    (req : ApprovalRequest) (hs : lookupA sid reg.sessions = some s)
    (hst : s.status = SessionStatus.awaitingApproval)
    (hr : lookupA rid reg.approvals = some req) (hp : req.decision = Decision.pending)
    (href : req.sessionId = sid) :
    ∃ reg' : Registry, decideApproval rid false reg = Except.ok reg' ∧
      lookupA sid reg'.sessions
        = some { s with
                 status := SessionStatus.running,
                 log := s.log ++ [denialEvent s.log.length] } ∧
      ({ s with
         status := SessionStatus.running,
         log := s.log ++ [denialEvent s.log.length] } : Session).status.isTerminal
        = false := by
  refine ⟨{ reg with
            approvals := updateA rid { req with decision := Decision.denied }
              reg.approvals,
            sessions := updateA sid
              { s with status := SessionStatus.running,
                       log := s.log ++ [denialEvent s.log.length] }
              reg.sessions },
    ?_, ?_, rfl⟩
  · simp [decideApproval, hr, hp, href, hs, hst]
  · exact lookupA_updateA_self _ hs

theorem denied_returns_running_witness :
    ∃ reg' : Registry,
      decideApproval 5 false
          { sessions := [(1, { workspaceId := 7, kind := SessionKind.remote,
                               status := SessionStatus.awaitingApproval,
                               log := [{ role := Role.agent,
                                         payload := Payload.approvalRequest "rm",
                                         seq := 1 }] })],
            approvals := [(5, { sessionId := 1, action := "rm",
                                decision := Decision.pending })],
            nextSessionId := 2, nextRequestId := 6 }
        = Except.ok reg' ∧
      lookupA 1 reg'.sessions
        = some { workspaceId := 7, kind := SessionKind.remote,
                 status := SessionStatus.running,
                 log := [{ role := Role.agent, payload := Payload.approvalRequest "rm",
                           seq := 1 }]
                   ++ [denialEvent 1] } ∧
      ({ workspaceId := 7, kind := SessionKind.remote,
         status := SessionStatus.running,
         log := [{ role := Role.agent, payload := Payload.approvalRequest "rm",
                   seq := 1 }]
           ++ [denialEvent 1] } : Session).status.isTerminal = false := by
  have h := denied_returns_running
    { sessions := [(1, { workspaceId := 7, kind := SessionKind.remote,
                         status := SessionStatus.awaitingApproval,
                         log := [{ role := Role.agent,
                                   payload := Payload.approvalRequest "rm",
                                   seq := 1 }] })],
      approvals := [(5, { sessionId := 1, action := "rm",
                          decision := Decision.pending })],
      nextSessionId := 2, nextRequestId := 6 } 1 5
    { workspaceId := 7, kind := SessionKind.remote,
      status := SessionStatus.awaitingApproval,
      log := [{ role := Role.agent, payload := Payload.approvalRequest "rm", seq := 1 }] }
    { sessionId := 1, action := "rm", decision := Decision.pending }
    (by decide) (by decide) (by decide) (by decide) (by decide)
  simpa using h

/-- Claim C6: every Orchestration Facade call carrying a sessionId fails
with `NotFound` when the session id is unknown or the session belongs to a
different workspace, before any Registry mutation; the unknown-id and
cross-workspace cases produce the identical error value, so the error does
not reveal whether the session exists in another workspace. -/
theorem facade_notFound_scoping (reg : Registry) (wid sid : Nat) (op : FacadeOp)
    (h : lookupA sid reg.sessions = none ∨
      ∃ s : Session, lookupA sid reg.sessions = some s ∧ s.workspaceId ≠ wid) :
    facadeCall wid sid op reg = Except.error OrchError.notFound := by
  have hfalse : sessionInWorkspace wid sid reg = false := by
    unfold sessionInWorkspace
    rcases h with hh | ⟨s, hs, hw⟩
    · rw [hh]
    · rw [hs]
      simp [hw]
  unfold facadeCall
  rw [hfalse]
  rfl

theorem facade_notFound_scoping_witness :
    facadeCall 9 1 (FacadeOp.sendMessage "hi")
        { sessions := [(1, { workspaceId := 7, kind := SessionKind.remote,
                             status := SessionStatus.running, log := [] })],
          approvals := [], nextSessionId := 2, nextRequestId := 1 }
      = Except.error OrchError.notFound ∧
    facadeCall 9 2 (FacadeOp.abortSession)
        { sessions := [(1, { workspaceId := 7, kind := SessionKind.remote,
                             status := SessionStatus.running, log := [] })],
          approvals := [], nextSessionId := 2, nextRequestId := 1 }
      = Except.error OrchError.notFound := by
  constructor
  · exact facade_notFound_scoping
      { sessions := [(1, { workspaceId := 7, kind := SessionKind.remote,
                           status := SessionStatus.running, log := [] })],
        approvals := [], nextSessionId := 2, nextRequestId := 1 } 9 1
      (FacadeOp.sendMessage "hi")
      (Or.inr ⟨{ workspaceId := 7, kind := SessionKind.remote,
                 status := SessionStatus.running, log := [] }, by decide, by decide⟩)
  · exact facade_notFound_scoping
      { sessions := [(1, { workspaceId := 7, kind := SessionKind.remote,
                           status := SessionStatus.running, log := [] })],
        approvals := [], nextSessionId := 2, nextRequestId := 1 } 9 2
      FacadeOp.abortSession (Or.inl (by decide))
